import Mathlib

/-!
Verification of the RK4 integrator in `src/RungeKutta.py` (class `RungeKutta`).

Shallow embedding conventions:
* Python floats are modelled as rationals (`ℚ`), so all arithmetic is exact.
* A value that can be a numpy 1-D array or Python `None` is a `PyVal`
  (`None` is what the unimplemented default `f` returns, since its body is
  `pass`).
* The stored `paths` buffer is an `NpArr`: `np.array(y0)` is 1-D (`one`),
  `np.vstack` produces a 2-D array (`two`), and `.T` on a 1-D array is the
  identity while `np.diff(-, axis=1)` on a 1-D array raises an axis error.
* Arithmetic on arrays follows numpy's broadcasting rules for 1-D operands:
  equal lengths are combined elementwise, a length-1 operand is broadcast,
  anything else raises (`broadcastError`); arithmetic on `None` raises a
  `typeError`.  The in-place update `yn += rhs` additionally requires the
  result to fit `yn`'s shape, which the same rule captures.
* The `while tn < self.T` loop is modelled with explicit fuel: `none` means
  the fuel ran out with the loop still running, `some` is a finished call
  (normal result or raised error).
-/

abbrev Vec := List ℚ

/-- A Python value reaching the numeric code: `None` or a 1-D numpy array. -/
inductive PyVal where
  | none
  | arr (v : Vec)
deriving DecidableEq, Repr

/-- Kinds of Python exceptions relevant here.  `notImplemented` stands for
`NotImplementedError`; it is listed because the spec predicts it, the code
never raises it.  `typeError` is a `TypeError` (arithmetic on `None`),
`broadcastError` a numpy shape-mismatch `ValueError`, `axisError` a numpy
`AxisError`. -/
inductive PyErr where
  | notImplemented
  | typeError
  | broadcastError
  | axisError
deriving DecidableEq, Repr

deriving instance DecidableEq for Except

/-- Scalar times array (`c * x`); `None` operand raises `TypeError`. -/
def pysmul (c : ℚ) : PyVal → Except PyErr PyVal
  | .none => .error .typeError
  | .arr v => .ok (.arr (v.map (fun x => c * x)))

/-- Array divided by scalar (`x / c`); `None` operand raises `TypeError`. -/
def pydivs : PyVal → ℚ → Except PyErr PyVal
  | .none, _ => .error .typeError
  | .arr v, c => .ok (.arr (v.map (fun x => x / c)))

/-- 1-D numpy addition with broadcasting; `None` operand raises `TypeError`,
incompatible lengths raise a shape-mismatch error. -/
def pyadd : PyVal → PyVal → Except PyErr PyVal
  | .none, _ => .error .typeError
  | .arr _, .none => .error .typeError
  | .arr a, .arr b =>
    if a.length = b.length then .ok (.arr (List.zipWith (· + ·) a b))
    else if a.length = 1 then .ok (.arr (b.map (fun x => a.headD 0 + x)))
    else if b.length = 1 then .ok (.arr (a.map (fun x => x + b.headD 0)))
    else .error .broadcastError

/-- In-place `target += rhs` on a 1-D array: the right-hand side must
broadcast to `target`'s shape (equal length, or length 1). -/
def iadd (target : Vec) : PyVal → Except PyErr Vec
  | .none => .error .typeError
  | .arr w =>
    if w.length = target.length then .ok (List.zipWith (· + ·) target w)
    else if w.length = 1 then .ok (target.map (fun x => x + w.headD 0))
    else .error .broadcastError

/-- The `paths` buffer: 1-D right after construction, 2-D after `vstack`. -/
inductive NpArr where
  | one (v : Vec)
  | two (rows : List Vec)
deriving DecidableEq, Repr

/-- `np.vstack([a, w])` for a 1-D or 2-D `a` and 1-D row `w`. -/
def NpArr.vstack : NpArr → Vec → NpArr
  | .one v, w => .two [v, w]
  | .two rs, w => .two (rs ++ [w])

/-- Transpose of a list of rows (all rows of the uniform length that occurs
in every reachable buffer): entry `(i, j)` of the result is entry `(j, i)`
of the input. -/
def transposeL (rs : List Vec) : List Vec :=
  (List.range (rs.headD []).length).map (fun i => rs.map (fun r => r.getD i 0))

/-- `.T`: the identity on a 1-D array, the transpose on a 2-D one. -/
def NpArr.transposed : NpArr → NpArr
  | .one v => .one v
  | .two rs => .two (transposeL rs)

/-- Consecutive differences of one row. -/
def diffRow (r : Vec) : Vec :=
  (List.range (r.length - 1)).map (fun i => r.getD (i + 1) 0 - r.getD i 0)

/-- `np.diff(a, axis=1)`: raises an axis error on a 1-D array. -/
def npdiff1 : NpArr → Except PyErr NpArr
  | .one _ => .error .axisError
  | .two rs => .ok (.two (rs.map diffRow))

/-- The numpy shape of the buffer ( `[n]` for 1-D, `[rows, cols]` for 2-D). -/
def NpArr.shape : NpArr → List Nat
  | .one v => [v.length]
  | .two rs => [rs.length, (rs.headD []).length]

/-- The buffer as a list of rows (a 1-D array is its single row). -/
def NpArr.rowsOf : NpArr → List Vec
  | .one v => [v]
  | .two rs => rs

/-- Entry `(j, i)` of the buffer, reading row `j` then column `i`. -/
def NpArr.entry (a : NpArr) (j i : Nat) : ℚ :=
  ((a.rowsOf).getD j []).getD i 0

/-- The integrator object.  `π` is the type of the opaque parameter payload
(`self.params`); `f` is the derivative method actually bound on the object
(the class default, or a caller override). -/
structure RungeKutta (π : Type) where
  y0 : Vec
  k : Nat
  T : ℚ
  delta_t : ℚ
  t : List ℚ
  paths : NpArr
  f : ℚ → PyVal → π → PyVal
  params : π

/-- `__init__(self, T, y0, delta_t)`: stores the configuration, sets
`k = y0.size`, seeds `t = [0]` and `paths = np.array(y0)` (1-D). -/
def RungeKutta.init {π : Type} (T : ℚ) (y0 : Vec) (delta_t : ℚ)
    (f : ℚ → PyVal → π → PyVal) (params : π) : RungeKutta π :=
  { y0 := y0, k := y0.length, T := T, delta_t := delta_t,
    t := [0], paths := .one y0, f := f, params := params }

/-- The class's unimplemented default `f`: its body is `pass`, so every call
returns `None`. -/
def defaultDeriv (π : Type) : ℚ → PyVal → π → PyVal := fun _ _ _ => .none

/-- A derivative function that always returns the 1-element zero vector. -/
def zeroDeriv (π : Type) : ℚ → PyVal → π → PyVal := fun _ _ _ => .arr [0]

/-- The mutable state of the `while` loop in `iterate`. -/
structure LoopSt where
  tn : ℚ
  yn : Vec
  t : List ℚ
  paths : NpArr
deriving DecidableEq, Repr

/-- Error propagation: a raised exception aborts the rest of the
computation (Python's exception flow through straight-line code). -/
def ebind {α β : Type} (x : Except PyErr α) (g : α → Except PyErr β) : Except PyErr β :=
  match x with
  | .error e => .error e
  | .ok a => g a

/-- The numeric core of one iteration of the loop body of `iterate`, in the
source's evaluation order, mapping the current `(tn, yn)` to the next:

    tn += self.delta_t
    k1 = self.f(tn, yn, self.params)
    k2 = self.f(tn + self.delta_t / 2, yn + self.delta_t * k1 / 2, self.params)
    k3 = self.f(tn + self.delta_t / 2, yn + self.delta_t * k2 / 2, self.params)
    k4 = self.f(tn + self.delta_t, yn + self.delta_t * k3, self.params)
    yn += 1.0 / 6 * self.delta_t * (k1 + 2 * k2 + 2 * k3 + k4)
-/
def stepCore {π : Type} (f : ℚ → PyVal → π → PyVal) (params : π)
    (delta_t tn : ℚ) (yn : Vec) : Except PyErr (ℚ × Vec) :=
  let tn1 := tn + delta_t
  let k1 := f tn1 (.arr yn) params
  ebind (pysmul delta_t k1) (fun u1 =>
  ebind (pydivs u1 2) (fun u2 =>
  ebind (pyadd (.arr yn) u2) (fun a2 =>
  let k2 := f (tn1 + delta_t / 2) a2 params
  ebind (pysmul delta_t k2) (fun v1 =>
  ebind (pydivs v1 2) (fun v2 =>
  ebind (pyadd (.arr yn) v2) (fun a3 =>
  let k3 := f (tn1 + delta_t / 2) a3 params
  ebind (pysmul delta_t k3) (fun w1 =>
  ebind (pyadd (.arr yn) w1) (fun a4 =>
  let k4 := f (tn1 + delta_t) a4 params
  ebind (pysmul 2 k2) (fun s1 =>
  ebind (pyadd k1 s1) (fun s2 =>
  ebind (pysmul 2 k3) (fun s3 =>
  ebind (pyadd s2 s3) (fun s4 =>
  ebind (pyadd s4 k4) (fun s5 =>
  ebind (pysmul (1 / 6 * delta_t) s5) (fun rhs =>
  ebind (iadd yn rhs) (fun yn1 =>
  .ok (tn1, yn1))))))))))))))))

/-- One iteration of the loop body of `iterate` acting on the loop state:
the numeric core above followed by

    self.t.append(tn)
    self.paths = np.vstack([self.paths, yn])
-/
def stepBody {π : Type} (rk : RungeKutta π) (st : LoopSt) : Except PyErr LoopSt :=
  match stepCore rk.f rk.params rk.delta_t st.tn st.yn with
  | .error e => .error e
  | .ok (tn1, yn1) =>
    .ok { tn := tn1, yn := yn1, t := st.t ++ [tn1], paths := st.paths.vstack yn1 }

/-- The `while tn < self.T` loop, with explicit fuel: `none` means the fuel
ran out with the guard still true (the loop is still running). -/
def iterLoop {π : Type} (rk : RungeKutta π) : Nat → LoopSt → Option (Except PyErr LoopSt)
  | 0, st => if st.tn < rk.T then none else some (.ok st)
  | fuel + 1, st =>
    if st.tn < rk.T then
      match stepBody rk st with
      | .error e => some (.error e)
      | .ok st1 => iterLoop rk fuel st1
    else some (.ok st)

/-- `iterate(self)`: runs the loop from `tn = 0`, `yn = self.y0.copy()` on
the object's current `t` and `paths` buffers, then stores
`self.t = np.array(self.t)` and `self.paths = self.paths.T`. -/
def RungeKutta.iterate {π : Type} (rk : RungeKutta π) (fuel : Nat) :
    Option (Except PyErr (RungeKutta π)) :=
  match iterLoop rk fuel { tn := 0, yn := rk.y0, t := rk.t, paths := rk.paths } with
  | Option.none => Option.none
  | some (.error e) => some (.error e)
  | some (.ok st) => some (.ok { rk with t := st.t, paths := st.paths.transposed })

/-- `get_paths(self)`: returns the stored buffers as they are. -/
def RungeKutta.get_paths {π : Type} (rk : RungeKutta π) : List ℚ × NpArr :=
  (rk.t, rk.paths)

/-- `get_diff_paths(self)`: `(self.t[:-1], np.diff(self.paths, axis=1))`. -/
def RungeKutta.get_diff_paths {π : Type} (rk : RungeKutta π) :
    Except PyErr (List ℚ × NpArr) :=
  match npdiff1 rk.paths with
  | .error e => .error e
  | .ok d => .ok (rk.t.dropLast, d)

/-- Project a finished `iterate` call to the observable outputs of the two
accessors (the record holds a function field, so results are compared
through this data-only view). -/
def runPaths {π : Type} (o : Option (Except PyErr (RungeKutta π))) :
    Option (Except PyErr ((List ℚ × NpArr) × Except PyErr (List ℚ × NpArr))) :=
  o.map (Except.map (fun r => (r.get_paths, r.get_diff_paths)))

/-- Project a finished `iterate` call to the recorded time sequence. -/
def timesOf {π : Type} (o : Option (Except PyErr (RungeKutta π))) :
    Option (Except PyErr (List ℚ)) :=
  o.map (Except.map (fun r => r.t))

/-- Elementwise sum of two vectors of equal length (broadcast-free numpy
addition, used to state what the stage arithmetic computes). -/
def vadd (a b : Vec) : Vec := List.zipWith (· + ·) a b

/-- Scalar multiple of a vector. -/
def vsmul (c : ℚ) (v : Vec) : Vec := v.map (fun x => c * x)

/-! ### A memory-explicit refinement of `iterate`

The Python loop mutates the array `yn` in place (`yn += ...`) after seeding
it with `yn = self.y0.copy()`.  Whether the caller's `y0` survives a run
therefore depends on array aliasing, which the pure model above cannot
express.  Here arrays live in an explicit heap of cells addressed by
index; `self.y0` is a pointer into that heap, `y0.copy()` allocates a fresh
cell, and `yn += ...` writes that cell.  The numeric computation is the
same `stepCore`. -/

/-- A heap of numpy-array cells, addressed by allocation index. -/
structure Heap where
  cells : List Vec
deriving DecidableEq, Repr

/-- Read the array stored at `p`. -/
def Heap.read (h : Heap) (p : Nat) : Vec := h.cells.getD p []

/-- Overwrite the array stored at `p` (an in-place numpy update). -/
def Heap.write (h : Heap) (p : Nat) (v : Vec) : Heap := ⟨h.cells.set p v⟩

/-- Allocate a fresh cell holding `v` (`.copy()`), returning the new heap
and the cell's address. -/
def Heap.alloc (h : Heap) (v : Vec) : Heap × Nat := (⟨h.cells ++ [v]⟩, h.cells.length)

/-- The integrator object with its `y0` array held by reference into the
heap; the remaining fields are as in `RungeKutta`. -/
structure RungeKuttaM (π : Type) where
  y0ptr : Nat
  k : Nat
  T : ℚ
  delta_t : ℚ
  t : List ℚ
  paths : NpArr
  f : ℚ → PyVal → π → PyVal
  params : π

/-- Loop state of the memory-explicit `iterate`: `yn` lives in the heap. -/
structure LoopStM where
  tn : ℚ
  t : List ℚ
  paths : NpArr
deriving DecidableEq, Repr

/-- Loop body of the memory-explicit `iterate`: read `yn` from its cell,
run the stage arithmetic, write the updated `yn` back in place, append to
the trajectory buffers. -/
def stepBodyM {π : Type} (rk : RungeKuttaM π) (ynp : Nat) (h : Heap)
    (st : LoopStM) : Except PyErr (Heap × LoopStM) :=
  match stepCore rk.f rk.params rk.delta_t st.tn (h.read ynp) with
  | .error e => .error e
  | .ok (tn1, yn1) =>
    .ok (h.write ynp yn1, { tn := tn1, t := st.t ++ [tn1], paths := st.paths.vstack yn1 })

/-- The `while` loop of the memory-explicit `iterate`; a raised error
returns the heap as it was when the error occurred. -/
def iterLoopM {π : Type} (rk : RungeKuttaM π) (ynp : Nat) :
    Nat → Heap → LoopStM → Option (Except PyErr LoopStM × Heap)
  | 0, h, st => if st.tn < rk.T then none else some (.ok st, h)
  | fuel + 1, h, st =>
    if st.tn < rk.T then
      match stepBodyM rk ynp h st with
      | .error e => some (.error e, h)
      | .ok (h1, st1) => iterLoopM rk ynp fuel h1 st1
    else some (.ok st, h)

/-- Memory-explicit `iterate(self)`: `yn = self.y0.copy()` allocates a
fresh cell seeded from the `y0` cell, the loop runs on it, and the final
buffers are stored back on the object as in the pure model. -/
def iterateM {π : Type} (rk : RungeKuttaM π) (h : Heap) (fuel : Nat) :
    Option (Except PyErr (RungeKuttaM π) × Heap) :=
  let y0v := h.read rk.y0ptr
  let h1 := (h.alloc y0v).1
  let ynp := (h.alloc y0v).2
  match iterLoopM rk ynp fuel h1 { tn := 0, t := rk.t, paths := rk.paths } with
  | Option.none => Option.none
  | some (.error e, h2) => some (.error e, h2)
  | some (.ok st, h2) =>
    some (.ok { rk with t := st.t, paths := st.paths.transposed }, h2)

/-! ### Concrete instances used by the claims -/

/-- A derivative function that always returns a 3-element zero vector
(used to exercise a dimension mismatch against `k = 2`). -/
def triZeroDeriv (π : Type) : ℚ → PyVal → π → PyVal := fun _ _ _ => .arr [0, 0, 0]

/-- A derivative function returning `[t]`, with non-trivial time dependence
(used to witness the stage-time convention). -/
def timeDeriv (π : Type) : ℚ → PyVal → π → PyVal := fun t _ _ => .arr [t]

/-- The same function on plain vectors, for the statement of C2. -/
def timeDerivV (π : Type) : ℚ → Vec → π → Vec := fun t _ _ => [t]

/-- C1's scenario: `T = 1`, `y0 = [1]`, `delta_t = 1`, `f ≡ [0]`. -/
def rk1 : RungeKutta Unit := RungeKutta.init 1 [1] 1 (zeroDeriv Unit) ()

/-- C2's witness object: `delta_t = 1`, `f(t, y) = [t]`. -/
def rk2 : RungeKutta Unit := RungeKutta.init 1 [1] 1 (timeDeriv Unit) ()

/-- C3's scenario: `delta_t = 0` with `T = 1 > 0`. -/
def rk3 : RungeKutta Unit := RungeKutta.init 1 [1] 0 (zeroDeriv Unit) ()

/-- C3's second scenario: `delta_t = -1/2 < 0` with `T = 1 > 0`. -/
def rk3n : RungeKutta Unit := RungeKutta.init 1 [1] (-(1 / 2)) (zeroDeriv Unit) ()

/-- C4's scenario: a freshly constructed object with `T = 0`. -/
def rk4c : RungeKutta Unit := RungeKutta.init 0 [5] 1 (zeroDeriv Unit) ()

/-- C5's scenario: the derivative left as the unimplemented default. -/
def rk5 : RungeKutta Unit := RungeKutta.init 1 [1] 1 (defaultDeriv Unit) ()

/-- C6's counterexample scenario: `k = 2` while `f` returns a length-1
vector at every call. -/
def rk6 : RungeKutta Unit := RungeKutta.init 1 [1, 2] 1 (zeroDeriv Unit) ()

/-- C6's witness scenario: `k = 2` while `f` returns a length-3 vector. -/
def rk6w : RungeKutta Unit := RungeKutta.init 1 [1, 2] 1 (triZeroDeriv Unit) ()

/-- C7's scenario: `T = 1`, `delta_t = 3/10`. -/
def rk7 : RungeKutta Unit := RungeKutta.init 1 [1] (3 / 10) (zeroDeriv Unit) ()

/-- C8's counterexample scenario: `T = 0` with `k = 2`. -/
def rk8 : RungeKutta Unit := RungeKutta.init 0 [1, 2] 1 (zeroDeriv Unit) ()

/-- C9's counterexample scenario: a completed zero-iteration run. -/
def rk9 : RungeKutta Unit := RungeKutta.init 0 [7] 1 (zeroDeriv Unit) ()

/-- C10's witness object: `y0` stored in heap cell 0. -/
def rkm : RungeKuttaM Unit :=
  { y0ptr := 0, k := 1, T := 1, delta_t := 1, t := [0], paths := .one [1],
    f := zeroDeriv Unit, params := () }

/-- C10's witness heap: one cell holding `y0 = [1]`. -/
def heap0 : Heap := ⟨[[1]]⟩

/-! ## Helper lemmas -/

lemma pysmul_arr (c : ℚ) (v : Vec) : pysmul c (.arr v) = .ok (.arr (vsmul c v)) := rfl

lemma pydivs_arr (v : Vec) (c : ℚ) :
    pydivs (.arr v) c = .ok (.arr (v.map (fun x => x / c))) := rfl

lemma pyadd_arr (a b : Vec) (h : a.length = b.length) :
    pyadd (.arr a) (.arr b) = .ok (.arr (vadd a b)) := by
  simp [pyadd, h, vadd]

lemma iadd_arr (target w : Vec) (h : w.length = target.length) :
    iadd target (.arr w) = .ok (vadd target w) := by
  simp [iadd, h, vadd]

lemma vsmul_length (c : ℚ) (v : Vec) : (vsmul c v).length = v.length :=
  List.length_map v _

lemma ebind_ok {α β : Type} (a : α) (g : α → Except PyErr β) :
    ebind (.ok a) g = g a := rfl

lemma ebind_err {α β : Type} (e : PyErr) (g : α → Except PyErr β) :
    ebind (.error e) g = .error e := rfl

lemma ebind_eq_ok {α β : Type} {x : Except PyErr α} {g : α → Except PyErr β} {b : β}
    (h : ebind x g = .ok b) : ∃ a, x = .ok a ∧ g a = .ok b := by
  cases x with
  | error e => exact absurd h (by simp [ebind])
  | ok a => exact ⟨a, rfl, h⟩

lemma iadd_eq (target w : Vec) :
    iadd target (.arr w) =
      if w.length = target.length then .ok (List.zipWith (· + ·) target w)
      else if w.length = 1 then .ok (target.map (fun x => x + w.headD 0))
      else .error .broadcastError := rfl

lemma iadd_length (target : Vec) (x : PyVal) (v : Vec) (h : iadd target x = .ok v) :
    v.length = target.length := by
  cases x with
  | none => exact absurd h (by simp [iadd])
  | arr w =>
    rw [iadd_eq] at h
    split at h
    · rename_i hw
      injection h with h
      subst h
      simp [List.length_zipWith, hw]
    · split at h
      · injection h with h; subst h; simp
      · exact absurd h (by simp)

lemma stepCore_ok_spec {π : Type} (f : ℚ → PyVal → π → PyVal) (p : π)
    (dt tn : ℚ) (yn : Vec) (tn1 : ℚ) (yn1 : Vec)
    (h : stepCore f p dt tn yn = .ok (tn1, yn1)) :
    tn1 = tn + dt ∧ yn1.length = yn.length := by
  unfold stepCore at h
  obtain ⟨u1, hu1, h⟩ := ebind_eq_ok h
  obtain ⟨u2, hu2, h⟩ := ebind_eq_ok h
  obtain ⟨a2, ha2, h⟩ := ebind_eq_ok h
  obtain ⟨v1, hv1, h⟩ := ebind_eq_ok h
  obtain ⟨v2, hv2, h⟩ := ebind_eq_ok h
  obtain ⟨a3, ha3, h⟩ := ebind_eq_ok h
  obtain ⟨w1, hw1, h⟩ := ebind_eq_ok h
  obtain ⟨a4, ha4, h⟩ := ebind_eq_ok h
  obtain ⟨s1, hs1, h⟩ := ebind_eq_ok h
  obtain ⟨s2, hs2, h⟩ := ebind_eq_ok h
  obtain ⟨s3, hs3, h⟩ := ebind_eq_ok h
  obtain ⟨s4, hs4, h⟩ := ebind_eq_ok h
  obtain ⟨s5, hs5, h⟩ := ebind_eq_ok h
  obtain ⟨rhs, hrhs, h⟩ := ebind_eq_ok h
  obtain ⟨ynv, hynv, h⟩ := ebind_eq_ok h
  simp only [Except.ok.injEq, Prod.mk.injEq] at h
  obtain ⟨h1, h2⟩ := h
  subst h1
  subst h2
  exact ⟨rfl, iadd_length _ _ _ hynv⟩

lemma stepBody_ok_spec {π : Type} (rk : RungeKutta π) (st st' : LoopSt)
    (h : stepBody rk st = .ok st') :
    st'.tn = st.tn + rk.delta_t ∧ st'.yn.length = st.yn.length ∧
    st'.t = st.t ++ [st'.tn] ∧ st'.paths = st.paths.vstack st'.yn := by
  unfold stepBody at h
  split at h
  · exact absurd h (by simp)
  · rename_i tn1 yn1 hc
    injection h with h
    subst h
    obtain ⟨h1, h2⟩ := stepCore_ok_spec _ _ _ _ _ _ _ hc
    exact ⟨h1, h2, rfl, rfl⟩

lemma iterLoop_zero {π : Type} (rk : RungeKutta π) (st : LoopSt) :
    iterLoop rk 0 st = if st.tn < rk.T then none else some (.ok st) := rfl

lemma iterLoop_succ {π : Type} (rk : RungeKutta π) (n : Nat) (st : LoopSt) :
    iterLoop rk (n + 1) st =
      if st.tn < rk.T then
        match stepBody rk st with
        | .error e => some (.error e)
        | .ok st1 => iterLoop rk n st1
      else some (.ok st) := rfl

lemma iterLoop_mono {π : Type} (rk : RungeKutta π) (n : Nat) (st : LoopSt)
    (r : Except PyErr LoopSt) (h : iterLoop rk n st = some r) :
    ∀ m, n ≤ m → iterLoop rk m st = some r := by
  induction n generalizing st with
  | zero =>
    intro m _
    rw [iterLoop_zero] at h
    by_cases hg : st.tn < rk.T
    · rw [if_pos hg] at h; exact absurd h (by simp)
    · rw [if_neg hg] at h
      cases m with
      | zero => rw [iterLoop_zero, if_neg hg]; exact h
      | succ m => rw [iterLoop_succ, if_neg hg]; exact h
  | succ n ih =>
    intro m hm
    rw [iterLoop_succ] at h
    by_cases hg : st.tn < rk.T
    · rw [if_pos hg] at h
      obtain ⟨m', rfl⟩ : ∃ m', m = m' + 1 := ⟨m - 1, by omega⟩
      rw [iterLoop_succ, if_pos hg]
      cases hb : stepBody rk st with
      | error e => rw [hb] at h; exact h
      | ok st1 => rw [hb] at h; exact ih st1 h m' (by omega)
    · rw [if_neg hg] at h
      cases m with
      | zero => rw [iterLoop_zero, if_neg hg]; exact h
      | succ m => rw [iterLoop_succ, if_neg hg]; exact h

/-! ## C1 -/

/-- C1: for the concrete run `T = 1`, `y0 = [1]`, `delta_t = 1`,
`f(t, y, params)` the zero vector, constructing the integrator and calling
`iterate()` yields `get_paths() = ([0, 1], [[1, 1]])` and
`get_diff_paths() = ([0], [[0]])`, for every sufficient fuel. -/
theorem c1_exact_scenario (fuel : Nat) (hfuel : 1 ≤ fuel) :
    runPaths (rk1.iterate fuel) =
      some (.ok (([0, 1], .two [[1, 1]]), .ok ([0], .two [[0]]))) := by
  have h1 : iterLoop rk1 1 { tn := 0, yn := rk1.y0, t := rk1.t, paths := rk1.paths } =
      some (.ok { tn := 1, yn := [1], t := [0, 1], paths := .two [[1], [1]] }) := by
    norm_num [iterLoop, stepBody, stepCore, ebind, pysmul, pydivs, pyadd, iadd, rk1,
      RungeKutta.init, zeroDeriv, vadd, vsmul, NpArr.vstack]
  have h2 := iterLoop_mono rk1 1 _ _ h1 fuel hfuel
  unfold RungeKutta.iterate
  rw [h2]
  norm_num [runPaths, RungeKutta.get_paths, RungeKutta.get_diff_paths, npdiff1, diffRow,
    Except.map, List.range_succ, NpArr.transposed, transposeL]

/-- C1 witness: the scenario evaluated at fuel 1. -/
theorem c1_exact_scenario_w :
    runPaths (rk1.iterate 1) =
      some (.ok (([0, 1], .two [[1, 1]]), .ok ([0], .two [[0]]))) :=
  c1_exact_scenario 1 (Nat.le_refl 1)

/-! ## C2 -/

lemma vadd_length (a b : Vec) : (vadd a b).length = min a.length b.length := by
  simp [vadd, List.length_zipWith]

lemma map_div_vsmul (c d : ℚ) (v : Vec) :
    (vsmul c v).map (fun x => x / d) = vsmul (c / d) v := by
  simp only [vsmul, List.map_map]
  congr 1
  funext x
  simp [Function.comp]
  ring

lemma sixth_vsmul (c : ℚ) (v : Vec) : vsmul (1 / 6 * c) v = vsmul (c / 6) v := by
  simp only [vsmul]
  congr 1
  funext x
  ring

/-- C2: in every iteration of the stepping loop, `tn` is advanced by
`delta_t` first, and only then is `k1` computed at the post-increment time
`tn` with `yn` still the previous step's state; `k2`, `k3` are evaluated at
`tn + delta_t/2` and `k4` at `tn + delta_t`; the new state is
`yn + (delta_t/6) * (k1 + 2*k2 + 2*k3 + k4)`.  Stated for any derivative
that returns plain vectors of the state's dimension. -/
theorem c2_stage_convention {π : Type} (rk : RungeKutta π) (st : LoopSt)
    (g : ℚ → Vec → π → Vec)
    (hf : ∀ t v p, rk.f t (.arr v) p = .arr (g t v p))
    (hlen : ∀ t v p, (g t v p).length = st.yn.length) :
    stepBody rk st = .ok
      (let tn1 := st.tn + rk.delta_t
       let K1 := g tn1 st.yn rk.params
       let K2 := g (tn1 + rk.delta_t / 2) (vadd st.yn (vsmul (rk.delta_t / 2) K1)) rk.params
       let K3 := g (tn1 + rk.delta_t / 2) (vadd st.yn (vsmul (rk.delta_t / 2) K2)) rk.params
       let K4 := g (tn1 + rk.delta_t) (vadd st.yn (vsmul rk.delta_t K3)) rk.params
       let yn1 := vadd st.yn (vsmul (rk.delta_t / 6)
         (vadd (vadd (vadd K1 (vsmul 2 K2)) (vsmul 2 K3)) K4))
       { tn := tn1, yn := yn1, t := st.t ++ [tn1], paths := st.paths.vstack yn1 }) := by
  simp only [stepBody, stepCore, hf, pysmul_arr, pydivs_arr, map_div_vsmul, sixth_vsmul,
    ebind_ok, pyadd_arr, iadd_arr, vsmul_length, hlen, vadd_length, min_self]

/-- C2 witness: one concrete step with `delta_t = 1`, `yn = [1]` and
`f(t, y) = [t]`: `k1` is evaluated at time 1 (not 0), `k2`, `k3` at `3/2`,
`k4` at `2`, giving the update `1 + (1/6)(1 + 3 + 3 + 2) = 5/2`. -/
theorem c2_stage_convention_w :
    stepBody rk2 { tn := 0, yn := [1], t := [0], paths := .one [1] } =
      .ok { tn := 1, yn := [5 / 2], t := [0, 1], paths := .two [[1], [5 / 2]] } := by
  rw [c2_stage_convention rk2 { tn := 0, yn := [1], t := [0], paths := .one [1] }
    (timeDerivV Unit) (fun _ _ _ => rfl) (fun _ _ _ => rfl)]
  norm_num [vadd, vsmul, timeDerivV, rk2, RungeKutta.init, NpArr.vstack]

/-! ## C3 -/

lemma stepCore_zero_f {π : Type} (f : ℚ → PyVal → π → PyVal) (p : π) (dt tn : ℚ) (yn : Vec)
    (hf : ∀ t v q, f t (.arr v) q = .arr [0]) :
    ∃ yn1, stepCore f p dt tn yn = .ok (tn + dt, yn1) := by
  by_cases hl : yn.length = 1
  · refine ⟨List.zipWith (· + ·) yn [0], ?_⟩
    norm_num [stepCore, ebind, hf, pysmul, pydivs, pyadd, iadd, hl]
  · have hl' : ¬(1 = yn.length) := fun h => hl h.symm
    refine ⟨yn.map (fun x => x + 0), ?_⟩
    norm_num [stepCore, ebind, hf, pysmul, pydivs, pyadd, iadd, hl, hl']

lemma iterLoop_nonpos_none {π : Type} (rk : RungeKutta π)
    (hf : ∀ t v q, rk.f t (.arr v) q = .arr [0])
    (hdt : rk.delta_t ≤ 0) (hT : 0 < rk.T) :
    ∀ (fuel : Nat) (st : LoopSt), st.tn ≤ 0 → iterLoop rk fuel st = none := by
  intro fuel
  induction fuel with
  | zero =>
    intro st h0
    rw [iterLoop_zero, if_pos (lt_of_le_of_lt h0 hT)]
  | succ n ih =>
    intro st h0
    rw [iterLoop_succ, if_pos (lt_of_le_of_lt h0 hT)]
    obtain ⟨yn1, hstep⟩ := stepCore_zero_f rk.f rk.params rk.delta_t st.tn st.yn hf
    have hb : stepBody rk st =
        .ok ⟨st.tn + rk.delta_t, yn1, st.t ++ [st.tn + rk.delta_t], st.paths.vstack yn1⟩ := by
      simp only [stepBody, hstep]
    rw [hb]
    exact ih _ (add_nonpos h0 hdt)

/-- C3: the code performs no step-size validation.  With `delta_t = 0` and
`T = 1 > 0` (object `rk3`), or `delta_t = -1/2 < 0` and `T = 1` (object
`rk3n`), the loop guard `tn < T` never becomes false: for every fuel bound
and any reachable `tn` (`0`, resp. `-n/2`), the loop is still running —
it neither terminates nor raises any error, let alone an "invalid step
size" one. -/
theorem c3_no_validation (fuel n : Nat) (yv : Vec) (tl : List ℚ) (ps : NpArr) :
    iterLoop rk3 fuel { tn := 0, yn := yv, t := tl, paths := ps } = none ∧
    iterLoop rk3n fuel { tn := -(n : ℚ) / 2, yn := yv, t := tl, paths := ps } = none := by
  constructor
  · exact iterLoop_nonpos_none rk3 (fun _ _ _ => rfl)
      (by norm_num [rk3, RungeKutta.init]) (by norm_num [rk3, RungeKutta.init])
      fuel _ le_rfl
  · exact iterLoop_nonpos_none rk3n (fun _ _ _ => rfl)
      (by norm_num [rk3n, RungeKutta.init]) (by norm_num [rk3n, RungeKutta.init])
      fuel _ (by
        have hn : (0 : ℚ) ≤ (n : ℚ) := Nat.cast_nonneg n
        simp only [LoopSt.tn]
        linarith)

/-! ## C4 -/

lemma iterLoop_done {π : Type} (rk : RungeKutta π) (fuel : Nat) (st : LoopSt)
    (hg : ¬ st.tn < rk.T) : iterLoop rk fuel st = some (.ok st) := by
  cases fuel with
  | zero => rw [iterLoop_zero, if_neg hg]
  | succ n => rw [iterLoop_succ, if_neg hg]

/-- C4 counterexample: on the freshly constructed object with `T = 0`,
`y0 = [5]` (`rk4c`), `get_diff_paths` raises a numpy axis error (the stored
`paths` buffer is still 1-D), and a completed zero-iteration `iterate()`
leaves it so: the accessors do NOT both succeed with empty difference
sequences as claimed. -/
theorem c4_cex :
    rk4c.get_diff_paths = .error .axisError ∧
    runPaths (rk4c.iterate 0) = some (.ok (([0], .one [5]), .error .axisError)) := by
  constructor
  · rfl
  · norm_num [RungeKutta.iterate, iterLoop, rk4c, RungeKutta.init, runPaths,
      RungeKutta.get_paths, RungeKutta.get_diff_paths, npdiff1, NpArr.transposed,
      Except.map]

/-- C4 amended: on a freshly constructed integrator — and equally after a
completed `iterate()` run with `T ≤ 0`, which performs zero loop
iterations — `get_paths()` returns `([0], y0)` (the seed-only trajectory,
with the states buffer still the 1-D seed array) without error, but
`get_diff_paths()` raises an axis-out-of-bounds error, because
`np.diff(-, axis=1)` is applied to that 1-D buffer; it does not return
empty sequences. -/
theorem c4_degenerate {π : Type} (T : ℚ) (y0 : Vec) (dt : ℚ)
    (f : ℚ → PyVal → π → PyVal) (p : π) (fuel : Nat) (hT : T ≤ 0) :
    (RungeKutta.init T y0 dt f p).get_paths = ([0], .one y0) ∧
    (RungeKutta.init T y0 dt f p).get_diff_paths = .error .axisError ∧
    runPaths ((RungeKutta.init T y0 dt f p).iterate fuel) =
      some (.ok (([0], .one y0), .error .axisError)) := by
  refine ⟨rfl, rfl, ?_⟩
  have hg : ¬ (0 : ℚ) < T := not_lt.mpr hT
  have hdone := iterLoop_done (RungeKutta.init T y0 dt f p) fuel
    ⟨0, (RungeKutta.init T y0 dt f p).y0, (RungeKutta.init T y0 dt f p).t,
      (RungeKutta.init T y0 dt f p).paths⟩ hg
  unfold RungeKutta.iterate
  rw [hdone]
  rfl

/-- C4 witness: the amended statement at `T = 0`, `y0 = [7]`. -/
theorem c4_degenerate_w :
    (RungeKutta.init 0 [7] 1 (zeroDeriv Unit) ()).get_paths = ([0], .one [7]) ∧
    (RungeKutta.init 0 [7] 1 (zeroDeriv Unit) ()).get_diff_paths = .error .axisError ∧
    runPaths ((RungeKutta.init 0 [7] 1 (zeroDeriv Unit) ()).iterate 3) =
      some (.ok (([0], .one [7]), .error .axisError)) :=
  c4_degenerate 0 [7] 1 (zeroDeriv Unit) () 3 le_rfl

/-! ## C5 -/

/-- C5 counterexample: invoking the stepping pass with `f` left as the
unimplemented default does fail, but with a `TypeError` (the returned
`None` is used in the arithmetic `delta_t * k1`), which is not a
"not implemented" error kind. -/
theorem c5_cex :
    rk5.iterate 1 = some (.error .typeError) ∧
    PyErr.typeError ≠ PyErr.notImplemented := by
  constructor
  · norm_num [RungeKutta.iterate, iterLoop, stepBody, stepCore, ebind, pysmul, rk5,
      RungeKutta.init, defaultDeriv]
  · exact fun h => PyErr.noConfusion h

/-- C5 amended: if `iterate()` is invoked (with `0 < T`, so the loop runs)
while `f` is still the unimplemented default — whose body `pass` returns
`None` — the pass fails on the first iteration with a `TypeError`, raised
when `delta_t * k1` is computed for `k2`'s argument. It is not a
`NotImplementedError`, and in particular the pass does not silently behave
as if `f` returned zero derivatives. -/
theorem c5_default_f {π : Type} (rk : RungeKutta π) (fuel : Nat)
    (hf : rk.f = defaultDeriv π) (hT : 0 < rk.T) (hfuel : 1 ≤ fuel) :
    rk.iterate fuel = some (.error .typeError) := by
  obtain ⟨m, rfl⟩ : ∃ m, fuel = m + 1 := ⟨fuel - 1, by omega⟩
  have hg : ((⟨0, rk.y0, rk.t, rk.paths⟩ : LoopSt).tn < rk.T) := hT
  have hb : stepBody rk ⟨0, rk.y0, rk.t, rk.paths⟩ = .error .typeError := by
    simp [stepBody, stepCore, ebind, hf, defaultDeriv, pysmul]
  have hL : iterLoop rk (m + 1) ⟨0, rk.y0, rk.t, rk.paths⟩ =
      some (.error .typeError) := by
    rw [iterLoop_succ, if_pos hg, hb]
  unfold RungeKutta.iterate
  rw [hL]

/-- C5 witness: the amended statement on the concrete default-derivative
object `rk5`. -/
theorem c5_default_f_w : rk5.iterate 1 = some (.error .typeError) :=
  c5_default_f rk5 1 rfl (by norm_num [rk5, RungeKutta.init]) le_rfl

/-! ## C6 -/

/-- C6 counterexample: with `k = 2` and `f` returning the length-1 vector
`[0]` at every call (a length different from `k`), the pass does NOT fail:
the run completes, the length-1 results being silently broadcast against
the 2-dimensional state. -/
theorem c6_cex :
    runPaths (rk6.iterate 1) =
      some (.ok (([0, 1], .two [[1, 1], [2, 2]]), .ok ([0], .two [[0], [0]]))) := by
  have h1 : iterLoop rk6 1 ⟨0, rk6.y0, rk6.t, rk6.paths⟩ =
      some (.ok ⟨1, [1, 2], [0, 1], .two [[1, 2], [1, 2]]⟩) := by
    norm_num [iterLoop, stepBody, stepCore, ebind, pysmul, pydivs, pyadd, iadd, rk6,
      RungeKutta.init, zeroDeriv, NpArr.vstack]
  unfold RungeKutta.iterate
  rw [h1]
  norm_num [runPaths, RungeKutta.get_paths, RungeKutta.get_diff_paths, npdiff1, diffRow,
    Except.map, List.range_succ, NpArr.transposed, transposeL]

/-- C6 amended: a dimension mismatch is only detected when numpy cannot
broadcast.  For `k ≥ 2`, if `f` returns (at every call) a vector whose
length is neither `k` nor `1`, the pass fails on the first iteration with
a broadcast (shape-mismatch) error, raised when the offending `k1` enters
the computation of `k2`'s argument `yn + delta_t * k1 / 2`; a returned
length of `1` is silently broadcast instead (see the counterexample). -/
theorem c6_mismatch {π : Type} (rk : RungeKutta π) (w : Vec) (fuel : Nat)
    (hf : ∀ t v p, rk.f t (.arr v) p = .arr w)
    (hkw : rk.y0.length ≠ w.length) (hw1 : w.length ≠ 1) (hk1 : rk.y0.length ≠ 1)
    (hT : 0 < rk.T) (hfuel : 1 ≤ fuel) :
    rk.iterate fuel = some (.error .broadcastError) := by
  obtain ⟨m, rfl⟩ : ∃ m, fuel = m + 1 := ⟨fuel - 1, by omega⟩
  have hg : ((⟨0, rk.y0, rk.t, rk.paths⟩ : LoopSt).tn < rk.T) := hT
  have hb : stepBody rk ⟨0, rk.y0, rk.t, rk.paths⟩ = .error .broadcastError := by
    simp [stepBody, stepCore, ebind, hf, pysmul, pydivs, pyadd, List.length_map,
      hkw, hw1, hk1]
  have hL : iterLoop rk (m + 1) ⟨0, rk.y0, rk.t, rk.paths⟩ =
      some (.error .broadcastError) := by
    rw [iterLoop_succ, if_pos hg, hb]
  unfold RungeKutta.iterate
  rw [hL]

/-- C6 witness: the amended statement with `k = 2` and `f ≡ [0, 0, 0]`. -/
theorem c6_mismatch_w : rk6w.iterate 1 = some (.error .broadcastError) :=
  c6_mismatch rk6w [0, 0, 0] 1 (fun _ _ _ => rfl)
    (by norm_num [rk6w, RungeKutta.init]) (by norm_num)
    (by norm_num [rk6w, RungeKutta.init]) (by norm_num [rk6w, RungeKutta.init]) le_rfl

/-! ## C7 -/

lemma iterLoop_exit {π : Type} (rk : RungeKutta π) :
    ∀ (fuel : Nat) (st st' : LoopSt), iterLoop rk fuel st = some (.ok st') →
      (¬ st'.tn < rk.T) ∧ (st'.tn = st.tn ∨ st'.tn < rk.T + rk.delta_t) := by
  intro fuel
  induction fuel with
  | zero =>
    intro st st' h
    rw [iterLoop_zero] at h
    by_cases hg : st.tn < rk.T
    · rw [if_pos hg] at h; exact absurd h (by simp)
    · rw [if_neg hg] at h
      injection h with h
      injection h with h
      subst h
      exact ⟨hg, Or.inl rfl⟩
  | succ n ih =>
    intro st st' h
    rw [iterLoop_succ] at h
    by_cases hg : st.tn < rk.T
    · rw [if_pos hg] at h
      cases hb : stepBody rk st with
      | error e => exact absurd h (by simp [hb])
      | ok st1 =>
        rw [hb] at h
        obtain ⟨h1, h2⟩ := ih st1 st' h
        refine ⟨h1, Or.inr ?_⟩
        obtain ⟨htn, -, -, -⟩ := stepBody_ok_spec rk st st1 hb
        rcases h2 with h2 | h2
        · rw [h2, htn]; exact add_lt_add_right hg _
        · exact h2
    · rw [if_neg hg] at h
      injection h with h
      injection h with h
      subst h
      exact ⟨hg, Or.inl rfl⟩

/-- C7: with `T = 1`, `delta_t = 3/10` and exact arithmetic, the stepping
loop executes exactly 4 iterations and records the times
`0, 3/10, 3/5, 9/10, 6/5` — the final sample overshooting `T` by `1/5` —
and in general a completed loop stops at the first `tn` that is not
`< T`, which equals the entry time (no iteration) or overshoots `T` by
strictly less than `delta_t`. -/
theorem c7_overshoot {π : Type} (fuel : Nat) (hfuel : 4 ≤ fuel)
    (rk : RungeKutta π) (fl : Nat) (st st' : LoopSt)
    (hrun : iterLoop rk fl st = some (.ok st')) :
    timesOf (rk7.iterate fuel) = some (.ok [0, 3 / 10, 3 / 5, 9 / 10, 6 / 5]) ∧
    (¬ st'.tn < rk.T) ∧ (st'.tn = st.tn ∨ st'.tn < rk.T + rk.delta_t) := by
  refine ⟨?_, iterLoop_exit rk fl st st' hrun⟩
  have h4 : iterLoop rk7 4 ⟨0, rk7.y0, rk7.t, rk7.paths⟩ =
      some (.ok ⟨6 / 5, [1], [0, 3 / 10, 3 / 5, 9 / 10, 6 / 5],
        .two [[1], [1], [1], [1], [1]]⟩) := by
    norm_num [iterLoop, stepBody, stepCore, ebind, pysmul, pydivs, pyadd, iadd, rk7,
      RungeKutta.init, zeroDeriv, NpArr.vstack]
  have h5 := iterLoop_mono rk7 4 _ _ h4 fuel hfuel
  unfold RungeKutta.iterate
  rw [h5]
  rfl

/-- C7 witness: the statement at fuel 4, with the general clause
instantiated on the very same run, whose exit time `6/5` indeed is not
below `T = 1` and overshoots it by less than `3/10`. -/
theorem c7_overshoot_w :
    timesOf (rk7.iterate 4) = some (.ok [0, 3 / 10, 3 / 5, 9 / 10, 6 / 5]) ∧
    (¬ (6 / 5 : ℚ) < rk7.T) ∧
    ((6 / 5 : ℚ) = 0 ∨ (6 / 5 : ℚ) < rk7.T + rk7.delta_t) :=
  c7_overshoot 4 le_rfl rk7 4 ⟨0, [1], [0], .one [1]⟩
    ⟨6 / 5, [1], [0, 3 / 10, 3 / 5, 9 / 10, 6 / 5], .two [[1], [1], [1], [1], [1]]⟩
    (by norm_num [iterLoop, stepBody, stepCore, ebind, pysmul, pydivs, pyadd, iadd, rk7,
      RungeKutta.init, zeroDeriv, NpArr.vstack])

/-! ## C8 -/

lemma rowsOf_two (rs : List Vec) : (NpArr.two rs).rowsOf = rs := rfl

lemma rowsOf_vstack (a : NpArr) (w : Vec) : (a.vstack w).rowsOf = a.rowsOf ++ [w] := by
  cases a <;> rfl

lemma vstack_is_two (a : NpArr) (w : Vec) : ∃ rs, a.vstack w = .two rs := by
  cases a <;> exact ⟨_, rfl⟩

lemma iterLoop_paths_two {π : Type} (rk : RungeKutta π) :
    ∀ (fuel : Nat) (st st' : LoopSt), iterLoop rk fuel st = some (.ok st') →
      st'.paths = st.paths ∨ ∃ rs, st'.paths = .two rs := by
  intro fuel
  induction fuel with
  | zero =>
    intro st st' h
    rw [iterLoop_zero] at h
    by_cases hg : st.tn < rk.T
    · rw [if_pos hg] at h; exact absurd h (by simp)
    · rw [if_neg hg] at h
      injection h with h
      injection h with h
      subst h
      exact Or.inl rfl
  | succ n ih =>
    intro st st' h
    rw [iterLoop_succ] at h
    by_cases hg : st.tn < rk.T
    · rw [if_pos hg] at h
      cases hb : stepBody rk st with
      | error e => exact absurd h (by simp [hb])
      | ok st1 =>
        rw [hb] at h
        obtain ⟨-, -, -, hp⟩ := stepBody_ok_spec rk st st1 hb
        rcases ih st1 st' h with h2 | h2
        · rw [h2, hp]; exact Or.inr (vstack_is_two _ _)
        · exact Or.inr h2
    · rw [if_neg hg] at h
      injection h with h
      injection h with h
      subst h
      exact Or.inl rfl

lemma iterLoop_inv {π : Type} (rk : RungeKutta π) (k : Nat) :
    ∀ (fuel : Nat) (st st' : LoopSt), iterLoop rk fuel st = some (.ok st') →
      st.yn.length = k → st.t.length = st.paths.rowsOf.length →
      (∀ r ∈ st.paths.rowsOf, r.length = k) →
      st'.yn.length = k ∧ st'.t.length = st'.paths.rowsOf.length ∧
      (∀ r ∈ st'.paths.rowsOf, r.length = k) ∧ st.t.length ≤ st'.t.length := by
  intro fuel
  induction fuel with
  | zero =>
    intro st st' h h1 h2 h3
    rw [iterLoop_zero] at h
    by_cases hg : st.tn < rk.T
    · rw [if_pos hg] at h; exact absurd h (by simp)
    · rw [if_neg hg] at h
      injection h with h
      injection h with h
      subst h
      exact ⟨h1, h2, h3, le_rfl⟩
  | succ n ih =>
    intro st st' h h1 h2 h3
    rw [iterLoop_succ] at h
    by_cases hg : st.tn < rk.T
    · rw [if_pos hg] at h
      cases hb : stepBody rk st with
      | error e => exact absurd h (by simp [hb])
      | ok st1 =>
        rw [hb] at h
        obtain ⟨-, hyl, ht, hp⟩ := stepBody_ok_spec rk st st1 hb
        have h1' : st1.yn.length = k := hyl.trans h1
        have h2' : st1.t.length = st1.paths.rowsOf.length := by
          rw [ht, hp, rowsOf_vstack]
          simp [h2]
        have h3' : ∀ r ∈ st1.paths.rowsOf, r.length = k := by
          rw [hp, rowsOf_vstack]
          intro r hr
          rcases List.mem_append.mp hr with hr | hr
          · exact h3 r hr
          · rw [List.mem_singleton.mp hr]; exact h1'
        obtain ⟨a1, a2, a3, a4⟩ := ih st1 st' h h1' h2' h3'
        refine ⟨a1, a2, a3, le_trans ?_ a4⟩
        rw [ht]
        simp
    · rw [if_neg hg] at h
      injection h with h
      injection h with h
      subst h
      exact ⟨h1, h2, h3, le_rfl⟩

lemma iterLoop_first {π : Type} (rk : RungeKutta π) (fuel : Nat) (st st' : LoopSt)
    (h : iterLoop rk fuel st = some (.ok st')) (hg : st.tn < rk.T) :
    ∃ (n : Nat) (st1 : LoopSt), fuel = n + 1 ∧ stepBody rk st = .ok st1 ∧
      iterLoop rk n st1 = some (.ok st') := by
  cases fuel with
  | zero => rw [iterLoop_zero, if_pos hg] at h; exact absurd h (by simp)
  | succ n =>
    rw [iterLoop_succ, if_pos hg] at h
    cases hb : stepBody rk st with
    | error e =>
      try rw [hb] at h
      exact absurd h (by simp)
    | ok st1 =>
      try rw [hb] at h
      refine ⟨n, st1, rfl, ?_, h⟩
      first
      | exact hb
      | rfl

lemma iterate_ok_elim {π : Type} (rk : RungeKutta π) (fuel : Nat) (rk' : RungeKutta π)
    (h : rk.iterate fuel = some (.ok rk')) :
    ∃ st', iterLoop rk fuel ⟨0, rk.y0, rk.t, rk.paths⟩ = some (.ok st') ∧
      rk' = { rk with t := st'.t, paths := st'.paths.transposed } := by
  unfold RungeKutta.iterate at h
  cases hL : iterLoop rk fuel ⟨0, rk.y0, rk.t, rk.paths⟩ with
  | none => exact absurd h (by simp [hL])
  | some r =>
    cases r with
    | error e => rw [hL] at h; exact absurd h (by simp)
    | ok st' =>
      rw [hL] at h
      simp only [Option.some.injEq, Except.ok.injEq] at h
      exact ⟨st', rfl, h.symm⟩

lemma transposeL_mem_length (rs : List Vec) (r : Vec) (hr : r ∈ transposeL rs) :
    r.length = rs.length := by
  unfold transposeL at hr
  obtain ⟨i, -, rfl⟩ := List.mem_map.mp hr
  exact List.length_map rs _

lemma transposeL_length (rs : List Vec) :
    (transposeL rs).length = (rs.headD []).length := by
  simp [transposeL]

lemma transposeL_headD (rs : List Vec) (hk : 1 ≤ (rs.headD []).length) :
    (transposeL rs).headD [] = rs.map (fun r => r.getD 0 0) := by
  unfold transposeL
  obtain ⟨m, hm⟩ : ∃ m, (rs.headD []).length = m + 1 :=
    ⟨(rs.headD []).length - 1, by omega⟩
  rw [hm, List.range_succ_eq_map]
  simp

lemma shape_transposed (rs : List Vec) (k : Nat) (hk : 1 ≤ k) (hne : rs ≠ [])
    (hall : ∀ r ∈ rs, r.length = k) :
    (NpArr.two rs).transposed.shape = [k, rs.length] := by
  have hh : (rs.headD []).length = k := by
    cases rs with
    | nil => exact absurd rfl hne
    | cons a l => exact hall a (List.mem_cons_self a l)
  have h1 : (transposeL rs).length = k := by rw [transposeL_length, hh]
  have h2 : ((transposeL rs).headD []).length = rs.length := by
    rw [transposeL_headD rs (by rw [hh]; exact hk)]
    exact List.length_map rs _
  simp only [NpArr.transposed, NpArr.shape]
  rw [h1, h2]

/-- C8 counterexample: a completed zero-iteration run (`T = 0`, `k = 2`)
records `times` of length 1 while the states buffer stays the 1-D seed
array of shape `[2]` — which is not the claimed `k × len(times)` matrix
shape `[2, 1]`. -/
theorem c8_cex :
    (rk8.iterate 1).map (Except.map (fun r => (r.paths.shape, r.t.length))) =
      some (.ok ([2], 1)) ∧ ([2] : List Nat) ≠ [2, 1] := by
  constructor
  · norm_num [RungeKutta.iterate, iterLoop, rk8, RungeKutta.init, NpArr.transposed,
      NpArr.shape, Except.map]
  · simp

/-- C8 amended: after a completed run with at least one loop iteration
(`0 < T`) and `k = len(y0) ≥ 1`, the states buffer is 2-D with numpy shape
`[k, len(times)]` — state axis `k`, time axis `len(times)` — and during the
loop the buffers grow in lockstep: every successful body appends exactly
one time and one row, never one without the other.  (A completed
zero-iteration run instead leaves the 1-D seed buffer; see the
counterexample.) -/
theorem c8_shape {π : Type} (T : ℚ) (y0 : Vec) (dt : ℚ)
    (f : ℚ → PyVal → π → PyVal) (p : π) (fuel : Nat) (rk' : RungeKutta π)
    (hk : 1 ≤ y0.length) (hT : 0 < T)
    (hrun : (RungeKutta.init T y0 dt f p).iterate fuel = some (.ok rk')) :
    rk'.paths.shape = [y0.length, rk'.t.length] ∧
    (∀ st st1 : LoopSt, stepBody (RungeKutta.init T y0 dt f p) st = .ok st1 →
      st1.t.length = st.t.length + 1 ∧
      st1.paths.rowsOf.length = st.paths.rowsOf.length + 1) := by
  constructor
  · obtain ⟨st', hL, hrk⟩ := iterate_ok_elim _ fuel rk' hrun
    subst hrk
    have hg : ((⟨0, (RungeKutta.init T y0 dt f p).y0, (RungeKutta.init T y0 dt f p).t,
        (RungeKutta.init T y0 dt f p).paths⟩ : LoopSt).tn < (RungeKutta.init T y0 dt f p).T) := hT
    obtain ⟨h1', h2', h3', h4'⟩ := iterLoop_inv _ y0.length fuel _ st' hL rfl rfl
      (by
        intro r hr
        simp only [RungeKutta.init, NpArr.rowsOf, List.mem_singleton] at hr
        rw [hr])
    obtain ⟨n, st1, -, hb, hL'⟩ := iterLoop_first _ fuel _ st' hL hg
    obtain ⟨-, -, -, hp1⟩ := stepBody_ok_spec _ _ st1 hb
    obtain ⟨rs, hrs⟩ : ∃ rs, st'.paths = .two rs := by
      rcases iterLoop_paths_two _ n st1 st' hL' with h2 | h2
      · rw [h2, hp1]; exact vstack_is_two _ _
      · exact h2
    rw [hrs] at h2' h3'
    simp only [NpArr.rowsOf] at h2' h3'
    have hne : rs ≠ [] := by
      intro hnil
      subst hnil
      simp only [List.length_nil] at h2'
      have ht0 : ((⟨0, (RungeKutta.init T y0 dt f p).y0, (RungeKutta.init T y0 dt f p).t,
          (RungeKutta.init T y0 dt f p).paths⟩ : LoopSt)).t.length = 1 := rfl
      rw [ht0, h2'] at h4'
      exact absurd h4' (by norm_num)
    show (st'.paths.transposed).shape = [y0.length, st'.t.length]
    rw [hrs, shape_transposed rs y0.length hk hne h3', h2']
  · intro st st1 hb
    obtain ⟨-, -, ht, hp⟩ := stepBody_ok_spec _ st st1 hb
    constructor
    · rw [ht]; simp
    · rw [hp, rowsOf_vstack]; simp

/-- C8 witness: the amended statement on a completed one-iteration run
with `k = 2` (`T = 1`, `delta_t = 1`, `f ≡ [0]`): the final buffer has
shape `[2, 2]` with `times` of length 2. -/
theorem c8_shape_w :
    ({ y0 := [1, 2], k := 2, T := 1, delta_t := 1, t := [0, 1],
       paths := .two [[1, 1], [2, 2]], f := zeroDeriv Unit,
       params := () } : RungeKutta Unit).paths.shape =
      [([1, 2] : Vec).length,
        ({ y0 := [1, 2], k := 2, T := 1, delta_t := 1, t := [0, 1],
           paths := .two [[1, 1], [2, 2]], f := zeroDeriv Unit,
           params := () } : RungeKutta Unit).t.length] ∧
    (∀ st st1 : LoopSt, stepBody (RungeKutta.init 1 [1, 2] 1 (zeroDeriv Unit) ()) st = .ok st1 →
      st1.t.length = st.t.length + 1 ∧
      st1.paths.rowsOf.length = st.paths.rowsOf.length + 1) := by
  refine c8_shape 1 [1, 2] 1 (zeroDeriv Unit) () 1 _ (by norm_num) (by norm_num) ?_
  norm_num [RungeKutta.iterate, iterLoop, stepBody, stepCore, ebind, pysmul, pydivs,
    pyadd, iadd, RungeKutta.init, zeroDeriv, NpArr.vstack, NpArr.transposed, transposeL,
    List.range_succ]

/-! ## C9 -/

lemma getD_map_range {α : Type} (f : Nat → α) (n i : Nat) (d : α) (h : i < n) :
    ((List.range n).map f).getD i d = f i := by
  rw [List.getD_eq_getElem?_getD, List.getElem?_map, List.getElem?_range h]
  rfl

lemma getD_map_of_lt {α β : Type} (l : List α) (f : α → β) (j : Nat) (d : β) (d' : α)
    (h : j < l.length) :
    (l.map f).getD j d = f (l.getD j d') := by
  rw [List.getD_eq_getElem?_getD, List.getD_eq_getElem?_getD, List.getElem?_map,
    List.getElem?_eq_getElem h]
  rfl

lemma diffRow_getD (r : Vec) (i : Nat) (h : i < r.length - 1) :
    (diffRow r).getD i 0 = r.getD (i + 1) 0 - r.getD i 0 := by
  unfold diffRow
  rw [getD_map_range _ _ _ _ h]

lemma diffRow_length (r : Vec) : (diffRow r).length = r.length - 1 := by
  simp [diffRow]

lemma transposeL_getD_length (rs : List Vec) (j : Nat) (hj : j < (transposeL rs).length) :
    ((transposeL rs).getD j []).length = rs.length := by
  apply transposeL_mem_length
  have hg : (transposeL rs).getD j [] = (transposeL rs)[j] := by
    rw [List.getD_eq_getElem?_getD, List.getElem?_eq_getElem hj]
    rfl
  rw [hg]
  exact List.getElem_mem _

/-- C9 counterexample: a completed run can consist of the seed sample only
(`T = 0`, zero loop iterations); `get_diff_paths()` then raises a numpy
axis error on the still-1-D states buffer, instead of returning the empty
consecutive-difference sequences. -/
theorem c9_cex :
    (rk9.iterate 2).map (Except.map RungeKutta.get_diff_paths) =
      some (.ok (.error .axisError)) := by
  norm_num [RungeKutta.iterate, iterLoop, rk9, RungeKutta.init, NpArr.transposed,
    RungeKutta.get_diff_paths, npdiff1, Except.map]

/-- C9 amended: after a completed run with at least one loop iteration
(`0 < T`, `k = len(y0) ≥ 1`), `get_diff_paths()` returns exactly
`(times[:-1], d)` where `d` is the row-wise consecutive difference of the
states buffer: its time sequence has length `len(times) - 1`, `d` has
shape `[k, len(times) - 1]`, and entry `(j, i)` of `d` equals
`states[j][i+1] - states[j][i]`; `get_paths()` returns the stored buffers
as they are, so both accessors are read-only functions of the stored
state.  (After a zero-iteration run `get_diff_paths()` raises instead —
see the counterexample.) -/
theorem c9_diff {π : Type} (T : ℚ) (y0 : Vec) (dt : ℚ)
    (f : ℚ → PyVal → π → PyVal) (p : π) (fuel : Nat) (rk' : RungeKutta π)
    (hk : 1 ≤ y0.length) (hT : 0 < T)
    (hrun : (RungeKutta.init T y0 dt f p).iterate fuel = some (.ok rk')) :
    rk'.get_paths = (rk'.t, rk'.paths) ∧
    rk'.get_diff_paths = .ok (rk'.t.dropLast, .two (rk'.paths.rowsOf.map diffRow)) ∧
    rk'.t.dropLast.length = rk'.t.length - 1 ∧
    (NpArr.two (rk'.paths.rowsOf.map diffRow)).shape = [y0.length, rk'.t.length - 1] ∧
    (∀ j i : Nat, j < y0.length → i < rk'.t.length - 1 →
      (NpArr.two (rk'.paths.rowsOf.map diffRow)).entry j i =
        rk'.paths.entry j (i + 1) - rk'.paths.entry j i) := by
  obtain ⟨st', hL, hrk⟩ := iterate_ok_elim _ fuel rk' hrun
  have hg : ((⟨0, (RungeKutta.init T y0 dt f p).y0, (RungeKutta.init T y0 dt f p).t,
      (RungeKutta.init T y0 dt f p).paths⟩ : LoopSt).tn < (RungeKutta.init T y0 dt f p).T) := hT
  obtain ⟨h1', h2', h3', h4'⟩ := iterLoop_inv _ y0.length fuel _ st' hL rfl rfl
    (by
      intro r hr
      simp only [RungeKutta.init, NpArr.rowsOf, List.mem_singleton] at hr
      rw [hr])
  obtain ⟨n, st1, -, hb, hL'⟩ := iterLoop_first _ fuel _ st' hL hg
  obtain ⟨-, -, -, hp1⟩ := stepBody_ok_spec _ _ st1 hb
  obtain ⟨rs, hrs⟩ : ∃ rs, st'.paths = .two rs := by
    rcases iterLoop_paths_two _ n st1 st' hL' with h2 | h2
    · rw [h2, hp1]; exact vstack_is_two _ _
    · exact h2
  rw [hrs] at h2' h3'
  simp only [NpArr.rowsOf] at h2' h3'
  have hne : rs ≠ [] := by
    intro hnil
    subst hnil
    simp only [List.length_nil] at h2'
    have ht0 : ((⟨0, (RungeKutta.init T y0 dt f p).y0, (RungeKutta.init T y0 dt f p).t,
        (RungeKutta.init T y0 dt f p).paths⟩ : LoopSt)).t.length = 1 := rfl
    rw [ht0, h2'] at h4'
    exact absurd h4' (by norm_num)
  have hh : (rs.headD []).length = y0.length := by
    cases rs with
    | nil => exact absurd rfl hne
    | cons a l => exact h3' a (List.mem_cons_self a l)
  have htrsl : (transposeL rs).length = y0.length := by rw [transposeL_length, hh]
  have hrowlen : ∀ r ∈ transposeL rs, r.length = rs.length :=
    fun r hr => transposeL_mem_length rs r hr
  have hP : rk'.paths = st'.paths.transposed := by rw [hrk]
  have htt : rk'.t = st'.t := by rw [hrk]
  have hro : rk'.paths.rowsOf = transposeL rs := by rw [hP, hrs]; rfl
  have hd : npdiff1 rk'.paths = .ok (.two ((transposeL rs).map diffRow)) := by
    rw [hP, hrs]; rfl
  refine ⟨rfl, ?_, ?_, ?_, ?_⟩
  · unfold RungeKutta.get_diff_paths
    rw [hd, hro]
  · simp
  · rw [hro, htt]
    simp only [NpArr.shape, List.length_map]
    obtain ⟨a, l, hal⟩ : ∃ a l, transposeL rs = a :: l := by
      cases htl : transposeL rs with
      | nil => rw [htl] at htrsl; simp at htrsl; omega
      | cons a l => exact ⟨a, l, rfl⟩
    rw [hal]
    simp only [List.map_cons, List.headD_cons, List.length_cons, diffRow_length]
    have hla : a.length = rs.length := hrowlen a (hal ▸ List.mem_cons_self a l)
    have hlen : l.length + 1 = y0.length := by
      have h5 := htrsl
      rw [hal] at h5
      simpa using h5
    rw [hla, hlen, h2']
  · intro j i hj hi
    simp only [NpArr.entry, hro, rowsOf_two]
    have hj2 : j < (transposeL rs).length := by rw [htrsl]; exact hj
    rw [getD_map_of_lt (transposeL rs) diffRow j [] [] hj2]
    have hlr : ((transposeL rs).getD j []).length = rs.length :=
      transposeL_getD_length rs j hj2
    rw [htt] at hi
    have hi2 : i < ((transposeL rs).getD j []).length - 1 := by
      rw [hlr, ← h2']
      exact hi
    rw [diffRow_getD _ i hi2]

/-- C9 witness: the amended statement on a completed one-iteration run with
`k = 2` (`T = 1`, `delta_t = 1`, `f ≡ [0]`), whose buffers are
`times = [0, 1]`, `states = [[1, 1], [2, 2]]`. -/
theorem c9_diff_w :
    ({ y0 := [1, 2], k := 2, T := 1, delta_t := 1, t := [0, 1],
       paths := .two [[1, 1], [2, 2]], f := zeroDeriv Unit,
       params := () } : RungeKutta Unit).get_paths =
      (({ y0 := [1, 2], k := 2, T := 1, delta_t := 1, t := [0, 1],
          paths := .two [[1, 1], [2, 2]], f := zeroDeriv Unit,
          params := () } : RungeKutta Unit).t,
        ({ y0 := [1, 2], k := 2, T := 1, delta_t := 1, t := [0, 1],
           paths := .two [[1, 1], [2, 2]], f := zeroDeriv Unit,
           params := () } : RungeKutta Unit).paths) ∧
    ({ y0 := [1, 2], k := 2, T := 1, delta_t := 1, t := [0, 1],
       paths := .two [[1, 1], [2, 2]], f := zeroDeriv Unit,
       params := () } : RungeKutta Unit).get_diff_paths =
      .ok (([0, 1] : List ℚ).dropLast, .two (([[1, 1], [2, 2]] : List Vec).map diffRow)) ∧
    (([0, 1] : List ℚ).dropLast).length = ([0, 1] : List ℚ).length - 1 ∧
    (NpArr.two (([[1, 1], [2, 2]] : List Vec).map diffRow)).shape =
      [([1, 2] : Vec).length, ([0, 1] : List ℚ).length - 1] ∧
    (∀ j i : Nat, j < ([1, 2] : Vec).length → i < ([0, 1] : List ℚ).length - 1 →
      (NpArr.two (([[1, 1], [2, 2]] : List Vec).map diffRow)).entry j i =
        (NpArr.two ([[1, 1], [2, 2]] : List Vec)).entry j (i + 1) -
          (NpArr.two ([[1, 1], [2, 2]] : List Vec)).entry j i) :=
  c9_diff 1 [1, 2] 1 (zeroDeriv Unit) () 1
    { y0 := [1, 2], k := 2, T := 1, delta_t := 1, t := [0, 1],
      paths := .two [[1, 1], [2, 2]], f := zeroDeriv Unit, params := () }
    (by norm_num) (by norm_num)
    (by norm_num [RungeKutta.iterate, iterLoop, stepBody, stepCore, ebind, pysmul, pydivs,
      pyadd, iadd, RungeKutta.init, zeroDeriv, NpArr.vstack, NpArr.transposed, transposeL,
      List.range_succ])

/-! ## C10 -/

lemma read_write_ne (h : Heap) (p q : Nat) (v : Vec) (hpq : q ≠ p) :
    (h.write p v).read q = h.read q := by
  simp only [Heap.read, Heap.write]
  rw [List.getD_eq_getElem?_getD, List.getD_eq_getElem?_getD,
    List.getElem?_set_ne (Ne.symm hpq)]

lemma read_append_lt (h : Heap) (p : Nat) (v : Vec) (hp : p < h.cells.length) :
    (Heap.mk (h.cells ++ [v])).read p = h.read p := by
  simp only [Heap.read]
  rw [List.getD_eq_getElem?_getD, List.getD_eq_getElem?_getD,
    List.getElem?_append_left hp]

lemma iterLoopM_zero {π : Type} (rk : RungeKuttaM π) (ynp : Nat) (h : Heap)
    (st : LoopStM) :
    iterLoopM rk ynp 0 h st =
      if st.tn < rk.T then none else some (.ok st, h) := rfl

lemma iterLoopM_succ {π : Type} (rk : RungeKuttaM π) (ynp : Nat) (n : Nat) (h : Heap)
    (st : LoopStM) :
    iterLoopM rk ynp (n + 1) h st =
      if st.tn < rk.T then
        match stepBodyM rk ynp h st with
        | .error e => some (.error e, h)
        | .ok (h1, st1) => iterLoopM rk ynp n h1 st1
      else some (.ok st, h) := rfl

lemma stepBodyM_ok_heap {π : Type} (rk : RungeKuttaM π) (ynp : Nat) (h : Heap)
    (st : LoopStM) (h1 : Heap) (st1 : LoopStM)
    (hb : stepBodyM rk ynp h st = .ok (h1, st1)) :
    ∃ yn1, h1 = h.write ynp yn1 := by
  unfold stepBodyM at hb
  cases hc : stepCore rk.f rk.params rk.delta_t st.tn (h.read ynp) with
  | error e =>
    try rw [hc] at hb
    exact absurd hb (by simp)
  | ok pr =>
    obtain ⟨tn1, yn1⟩ := pr
    try rw [hc] at hb
    simp only [Except.ok.injEq, Prod.mk.injEq] at hb
    exact ⟨yn1, hb.1.symm⟩

lemma iterLoopM_frame {π : Type} (rk : RungeKuttaM π) (ynp : Nat) :
    ∀ (fuel : Nat) (h : Heap) (st : LoopStM) (r : Except PyErr LoopStM) (h' : Heap),
      iterLoopM rk ynp fuel h st = some (r, h') →
      ∀ q, q ≠ ynp → h'.read q = h.read q := by
  intro fuel
  induction fuel with
  | zero =>
    intro h st r h' hrun q hq
    rw [iterLoopM_zero] at hrun
    by_cases hg : st.tn < rk.T
    · rw [if_pos hg] at hrun; exact absurd hrun (by simp)
    · rw [if_neg hg] at hrun
      injection hrun with hrun
      rw [(Prod.mk.injEq _ _ _ _).mp hrun |>.2]
  | succ n ih =>
    intro h st r h' hrun q hq
    rw [iterLoopM_succ] at hrun
    by_cases hg : st.tn < rk.T
    · rw [if_pos hg] at hrun
      cases hb : stepBodyM rk ynp h st with
      | error e =>
        try rw [hb] at hrun
        injection hrun with hrun
        rw [(Prod.mk.injEq _ _ _ _).mp hrun |>.2]
      | ok pr =>
        obtain ⟨h1, st1⟩ := pr
        try rw [hb] at hrun
        obtain ⟨yn1, hw⟩ := stepBodyM_ok_heap rk ynp h st h1 st1 hb
        have hr1 := ih h1 st1 r h' hrun q hq
        rw [hr1, hw, read_write_ne h ynp q yn1 hq]
    · rw [if_neg hg] at hrun
      injection hrun with hrun
      rw [(Prod.mk.injEq _ _ _ _).mp hrun |>.2]

/-- C10: a completed `iterate()` run never mutates the caller-supplied
configuration: the final heap holds the same array in the `y0` cell as the
initial heap (the loop allocated a fresh copy via `y0.copy()` and all
in-place `yn += ...` writes hit only that fresh cell), and the object's
`y0` pointer, `T`, `delta_t`, `k` and `params` fields are unchanged —
only `t` and `paths` are reassigned. -/
theorem c10_frame {π : Type} (rk : RungeKuttaM π) (h : Heap) (fuel : Nat)
    (rk' : RungeKuttaM π) (h' : Heap)
    (hp : rk.y0ptr < h.cells.length)
    (hrun : iterateM rk h fuel = some (.ok rk', h')) :
    h'.read rk.y0ptr = h.read rk.y0ptr ∧
    rk'.y0ptr = rk.y0ptr ∧ rk'.T = rk.T ∧ rk'.delta_t = rk.delta_t ∧
    rk'.k = rk.k ∧ rk'.params = rk.params := by
  unfold iterateM at hrun
  simp only [Heap.alloc] at hrun
  cases hL : iterLoopM rk h.cells.length fuel ⟨h.cells ++ [h.read rk.y0ptr]⟩
      ⟨0, rk.t, rk.paths⟩ with
  | none =>
    try rw [hL] at hrun
    exact absurd hrun (by simp)
  | some pr =>
    obtain ⟨r2, h2⟩ := pr
    try rw [hL] at hrun
    cases r2 with
    | error e => exact absurd hrun (by simp)
    | ok st2 =>
      simp only [Option.some.injEq, Prod.mk.injEq, Except.ok.injEq] at hrun
      obtain ⟨hr, hh⟩ := hrun
      subst hh
      constructor
      · have hfr := iterLoopM_frame rk h.cells.length fuel _ _ _ h2 hL rk.y0ptr
          (Nat.ne_of_lt hp)
        rw [hfr, read_append_lt h rk.y0ptr _ hp]
      · rw [← hr]
        exact ⟨rfl, rfl, rfl, rfl, rfl⟩

/-- C10 witness: the concrete run `T = 1`, `delta_t = 1`, `y0 = [1]` held in
heap cell 0, `f ≡ [0]`: after the run the `y0` cell still holds `[1]` and
all configuration fields are unchanged. -/
theorem c10_frame_w :
    (⟨[[1], [1]]⟩ : Heap).read rkm.y0ptr = heap0.read rkm.y0ptr ∧
    ({ rkm with t := [0, 1], paths := .two [[1, 1]] } : RungeKuttaM Unit).y0ptr = rkm.y0ptr ∧
    ({ rkm with t := [0, 1], paths := .two [[1, 1]] } : RungeKuttaM Unit).T = rkm.T ∧
    ({ rkm with t := [0, 1], paths := .two [[1, 1]] } : RungeKuttaM Unit).delta_t = rkm.delta_t ∧
    ({ rkm with t := [0, 1], paths := .two [[1, 1]] } : RungeKuttaM Unit).k = rkm.k ∧
    ({ rkm with t := [0, 1], paths := .two [[1, 1]] } : RungeKuttaM Unit).params = rkm.params :=
  c10_frame rkm heap0 1 { rkm with t := [0, 1], paths := .two [[1, 1]] } ⟨[[1], [1]]⟩
    (by norm_num [rkm, heap0])
    (by norm_num [iterateM, iterLoopM, stepBodyM, stepCore, ebind, pysmul, pydivs, pyadd,
      iadd, rkm, heap0, zeroDeriv, Heap.alloc, Heap.read, Heap.write, NpArr.vstack,
      NpArr.transposed, transposeL, List.range_succ, List.getD])
